import Mathlib

set_option maxHeartbeats 1000000

/-!
Verification of the juniper-compose library: the `ComposableObject` capability
contract, the `composite_object` composition step, and the `type_to_owned`
helper from `src/juniper-compose/src/lib.rs`.

Pure Rust code is translated directly; the behavior of the code-generation
macros (which live outside the sources at hand) is modelled from the spec,
with each such definition marked `Modelled from the spec:` in its doc comment.
-/

/-- Rust `Cow<'_, str>` as used by juniper's `Type`: either a borrowed or an
owned string.  `to_string()` extracts the underlying string data either way. -/
inductive Cow where
  | borrowed : String → Cow
  | owned : String → Cow
  deriving DecidableEq, Repr

/-- The string content of a `Cow` (Rust `name.to_string()` reads the content
regardless of whether it is borrowed or owned). -/
def Cow.str : Cow → String
  | .borrowed s => s
  | .owned s => s

/-- Juniper's `Type<'a>` enum: `Named(Cow<str>)`, `NonNullNamed(Cow<str>)`,
`List(Box<Type>, Option<usize>)`, `NonNullList(Box<Type>, Option<usize>)`. -/
inductive GqlType where
  | Named : Cow → GqlType
  | NonNullNamed : Cow → GqlType
  | List : GqlType → Option Nat → GqlType
  | NonNullList : GqlType → Option Nat → GqlType
  deriving DecidableEq, Repr

/-- Translation of `type_to_owned` from `src/juniper-compose/src/lib.rs`
(lines 163-169): converts a `Type<'_>` to a `Type<'static>` by cloning each
name into an owned `Cow` and recursing into list element types, keeping the
optional list size. -/
def type_to_owned : GqlType → GqlType
  | .Named name => .Named (.owned name.str)
  | .NonNullNamed name => .NonNullNamed (.owned name.str)
  | .List inner size => .List (type_to_owned inner) size
  | .NonNullList inner size => .NonNullList (type_to_owned inner) size

/-- Structural equality of GraphQL type values as the spec claim states it:
same variant, same name strings (content of the `Cow`, regardless of
borrowed/owned), same optional list sizes, recursively equal inner types. -/
def GqlType.structEq : GqlType → GqlType → Bool
  | .Named a, .Named b => a.str == b.str
  | .NonNullNamed a, .NonNullNamed b => a.str == b.str
  | .List i s, .List j t => GqlType.structEq i j && s == t
  | .NonNullList i s, .NonNullList j t => GqlType.structEq i j && s == t
  | _, _ => false

/-- Structural depth of a GraphQL type value: the measure that decreases at
each recursive call of `type_to_owned`. -/
def GqlType.depth : GqlType → Nat
  | .Named _ => 1
  | .NonNullNamed _ => 1
  | .List inner _ => inner.depth + 1
  | .NonNullList inner _ => inner.depth + 1

/-- Fuel-indexed variant of `type_to_owned`: recursion is capped by an
explicit fuel budget, returning `none` when the fuel runs out.  Used to
express that the structural recursion of `type_to_owned` terminates. -/
def type_to_owned_fuel : Nat → GqlType → Option GqlType
  | 0, _ => none
  | _ + 1, .Named name => some (.Named (.owned name.str))
  | _ + 1, .NonNullNamed name => some (.NonNullNamed (.owned name.str))
  | fuel + 1, .List inner size =>
      (type_to_owned_fuel fuel inner).map (fun t => .List t size)
  | fuel + 1, .NonNullList inner size =>
      (type_to_owned_fuel fuel inner).map (fun t => .NonNullList t size)

/-- Concrete name used in witness instantiations. -/
def nmX : String := "x"

/-- Modelled from the spec: a participant type of a composition (the
`composable_object` macro's output is missing from the sources at hand).
A participant is stateless and default-constructible, so it is captured by
its static data alone: the ordered `fields()` list of field-name strings,
and its field-resolution behavior — resolving a field on a fresh
default-constructed instance is a pure function of the field name, the
arguments and the context, returning a value or an error. -/
structure Participant (Ctx Args Val Err : Type) where
  fields : List String
  resolve : String → Args → Ctx → Except Err Val

/-- Modelled from the spec: the generated composite type holds no runtime
state of its own; it is determined by its ordered sequence of participants. -/
structure Composite (Ctx Args Val Err : Type) where
  participants : List (Participant Ctx Args Val Err)

/-- Modelled from the spec: the composite's `fields()` list is the flattened
concatenation of each participant's `fields()` list, participant order
preserved, fields within a participant in declared order. -/
def Composite.fields (c : Composite Ctx Args Val Err) : List String :=
  (c.participants.map (fun p => p.fields)).flatten

/-- Modelled from the spec: the composition-time duplicate check scans for a
field name that appears in more than one participant's list, returning the
first such colliding name, or `none` when the participants' lists are
pairwise disjoint. -/
def findCollision : List (Participant Ctx Args Val Err) → Option String
  | [] => none
  | p :: rest =>
      match p.fields.find? (fun n => rest.any (fun q => decide (n ∈ q.fields))) with
      | some n => some n
      | none => findCollision rest

/-- Modelled from the spec: the build-time errors the composition step can
raise — a malformed declaration with an empty participant list, or a field
name declared by more than one participant. -/
inductive CompositeError where
  | emptyParticipants : CompositeError
  | duplicateField : String → CompositeError
  deriving DecidableEq, Repr

/-- Modelled from the spec: the `composite_object` composition step.  Given
the ordered participant list it fails at build time on an empty participant
list or on a field name appearing in more than one participant's list
(naming a colliding field), and otherwise generates the composite. -/
def composite_object (ps : List (Participant Ctx Args Val Err)) :
    Except CompositeError (Composite Ctx Args Val Err) :=
  if ps.isEmpty then .error .emptyParticipants
  else
    match findCollision ps with
    | some n => .error (.duplicateField n)
    | none => .ok ⟨ps⟩

/-- Modelled from the spec: field-resolution dispatch of the generated
composite.  The participant declaring the requested field handles the call
on a fresh default instance, receiving the arguments and the context value
unchanged, and its result (value or error) is returned verbatim; when no
participant declares the field, the defensive "field not found" error
(built from the field name by `nf`) is returned instead of panicking. -/
def Composite.resolve (nf : String → Err) (c : Composite Ctx Args Val Err)
    (f : String) (args : Args) (ctx : Ctx) : Except Err Val :=
  match c.participants.find? (fun p => decide (f ∈ p.fields)) with
  | some p => p.resolve f args ctx
  | none => .error (nf f)

/-- Modelled from the spec: a generated composite itself satisfies the
Capability Contract — it is stateless/default-constructible and exposes a
`fields()` list — so it can be used as a participant of a higher-level
composite.  Its fields are the composite's fields and its resolution
behavior is the composite's dispatch. -/
def Composite.toParticipant (nf : String → Err) (c : Composite Ctx Args Val Err) :
    Participant Ctx Args Val Err :=
  { fields := c.fields, resolve := fun f args ctx => c.resolve nf f args ctx }

/-- Modelled from the spec: when the composition declaration omits the
context specifier, the generated composite uses the empty/unit context type,
so composition without a specifier is composition at context type `Unit`. -/
def composite_object_default_context (ps : List (Participant Unit Args Val Err)) :
    Except CompositeError (Composite Unit Args Val Err) :=
  composite_object ps

/-- Modelled from the spec: one call to the generated static `fields()`
function of a participant type.  The function is generated as a constant
list of the type's resolver names: it takes no instance of the type, and a
call in any caller state returns the list and leaves the state unchanged
(no side effects). -/
def fieldsCall (p : Participant Ctx Args Val Err) (s : σ) : List String × σ :=
  (p.fields, s)

/-- Concrete field names used in witness instantiations. -/
def fldA1 : String := "a1"

/-- Second field of the concrete participant `pA`. -/
def fldA2 : String := "a2"

/-- Field of the concrete participant `pB`. -/
def fldB1 : String := "b1"

/-- A field name declared by no concrete witness participant. -/
def fldZZ : String := "zz"

/-- Concrete participant with two fields, used in witnesses. -/
def pA : Participant Nat Nat Nat String :=
  { fields := [fldA1, fldA2], resolve := fun _ args ctx => Except.ok (args + ctx) }

/-- Concrete participant with one field, used in witnesses. -/
def pB : Participant Nat Nat Nat String :=
  { fields := [fldB1], resolve := fun _ _ _ => Except.ok 7 }

/-- Concrete participant colliding with `pA` on `fldA2`, used in witnesses. -/
def pC : Participant Nat Nat Nat String :=
  { fields := [fldA2], resolve := fun _ _ _ => Except.ok 9 }

/-- Concrete field-not-found error constructor used in witnesses. -/
def idNF : String → String := fun s => s

/-- A concrete composite used in witness instantiations. -/
def cA : Composite Nat Nat Nat String := Composite.mk [pA]

/-- Helper: participants with pairwise-disjoint field lists have no
collision. -/
theorem findCollision_eq_none_of_pairwise
    (ps : List (Participant Ctx Args Val Err))
    (h : ps.Pairwise (fun p q => ∀ n, n ∈ p.fields → n ∉ q.fields)) :
    findCollision ps = none := by
  induction ps with
  | nil => rfl
  | cons p rest ih =>
      rcases List.pairwise_cons.mp h with ⟨hp, hrest⟩
      have hfind :
          p.fields.find? (fun n => rest.any (fun q => decide (n ∈ q.fields))) = none := by
        rw [List.find?_eq_none]
        intro n hn
        simp only [List.any_eq_true, decide_eq_true_eq, not_exists, not_and]
        intro q hq
        exact hp q hq n hn
      simp [findCollision, hfind, ih hrest]

/-- Helper: a nonempty, pairwise-disjoint participant list composes
successfully into the composite of exactly those participants. -/
theorem composite_object_ok
    (ps : List (Participant Ctx Args Val Err)) (hne : ps ≠ [])
    (h : ps.Pairwise (fun p q => ∀ n, n ∈ p.fields → n ∉ q.fields)) :
    composite_object ps = .ok ⟨ps⟩ := by
  have h1 : ps.isEmpty = false := List.isEmpty_eq_false.mpr hne
  simp [composite_object, h1, findCollision_eq_none_of_pairwise ps h]

/-- Helper: a name reported by the collision check really is declared by two
distinct occurrences of participants in the list. -/
theorem findCollision_some_sound
    (ps : List (Participant Ctx Args Val Err)) (n : String)
    (h : findCollision ps = some n) :
    ∃ p q, List.Sublist [p, q] ps ∧ n ∈ p.fields ∧ n ∈ q.fields := by
  induction ps with
  | nil => simp [findCollision] at h
  | cons p rest ih =>
      simp only [findCollision] at h
      split at h
      next m hm =>
        injection h with h
        subst h
        have hmem := List.mem_of_find?_eq_some hm
        have hpred := List.find?_some hm
        simp only [List.any_eq_true, decide_eq_true_eq] at hpred
        obtain ⟨q, hq, hnq⟩ := hpred
        exact ⟨p, q, List.Sublist.cons₂ p (List.singleton_sublist.mpr hq), hmem, hnq⟩
      next hm =>
        obtain ⟨a, b, hsub, ha, hb⟩ := ih h
        exact ⟨a, b, List.Sublist.cons p hsub, ha, hb⟩

/-- Helper: the collision check reports a collision when the head participant
shares a field name with some later participant. -/
theorem findCollision_isSome_cons_of_mem
    (p : Participant Ctx Args Val Err)
    (rest : List (Participant Ctx Args Val Err)) (n : String)
    (h1 : n ∈ p.fields) (h2 : ∃ q ∈ rest, n ∈ q.fields) :
    (findCollision (p :: rest)).isSome = true := by
  have hs :
      (p.fields.find? (fun m => rest.any (fun q => decide (m ∈ q.fields)))).isSome := by
    rw [List.find?_isSome]
    obtain ⟨q, hq, hnq⟩ := h2
    refine ⟨n, h1, ?_⟩
    rw [List.any_eq_true]
    exact ⟨q, hq, by simpa using hnq⟩
  obtain ⟨m, hm⟩ := Option.isSome_iff_exists.mp hs
  simp only [findCollision]
  rw [hm]
  rfl

/-- Helper: the collision check reports a collision when the tail already has
one. -/
theorem findCollision_isSome_cons_of_tail
    (r : Participant Ctx Args Val Err)
    (rest : List (Participant Ctx Args Val Err))
    (h : (findCollision rest).isSome = true) :
    (findCollision (r :: rest)).isSome = true := by
  simp only [findCollision]
  cases hf : r.fields.find? (fun m => rest.any (fun q => decide (m ∈ q.fields))) with
  | some m => rfl
  | none => exact h

/-- Helper: when a field name occurs in two distinct participant positions,
the collision check reports some collision. -/
theorem findCollision_isSome_of_collision
    (u v w : List (Participant Ctx Args Val Err))
    (p q : Participant Ctx Args Val Err) (n : String)
    (h1 : n ∈ p.fields) (h2 : n ∈ q.fields) :
    (findCollision (u ++ p :: v ++ q :: w)).isSome = true := by
  induction u with
  | nil =>
      exact findCollision_isSome_cons_of_mem p (v ++ q :: w) n h1 ⟨q, by simp, h2⟩
  | cons r u ih =>
      exact findCollision_isSome_cons_of_tail r (u ++ p :: v ++ q :: w) ih

/-- Helper: in a collision-free participant list, dispatch lookup for a field
declared by the member `p` finds exactly `p`. -/
theorem find?_eq_of_no_collision
    (ps : List (Participant Ctx Args Val Err))
    (p : Participant Ctx Args Val Err) (f : String)
    (hnc : findCollision ps = none) (hp : p ∈ ps) (hf : f ∈ p.fields) :
    ps.find? (fun q => decide (f ∈ q.fields)) = some p := by
  induction ps with
  | nil => cases hp
  | cons r rest ih =>
      cases hhead : r.fields.find? (fun m => rest.any (fun q => decide (m ∈ q.fields))) with
      | some m => simp [findCollision, hhead] at hnc
      | none =>
          have hrest : findCollision rest = none := by
            simpa [findCollision, hhead] using hnc
          have hnone : ∀ m ∈ r.fields, ∀ q ∈ rest, m ∉ q.fields := by
            intro m hm q hq hmem
            have hx := List.find?_eq_none.mp hhead m hm
            simp only [List.any_eq_true, decide_eq_true_eq, not_exists, not_and] at hx
            exact hx q hq hmem
          rcases List.mem_cons.mp hp with hpr | hpin
          · subst hpr
            exact List.find?_cons_of_pos _ (by simpa using hf)
          · have hfr : f ∉ r.fields := fun hfr => hnone f hfr p hpin hf
            rw [List.find?_cons_of_neg _ (by simpa using hfr)]
            exact ih hrest hpin

/-- Helper: inversion of a successful composition — the composite consists of
exactly the given participants and the collision check passed. -/
theorem composite_object_ok_inv
    (ps : List (Participant Ctx Args Val Err)) (c : Composite Ctx Args Val Err)
    (h : composite_object ps = .ok c) :
    c = ⟨ps⟩ ∧ findCollision ps = none := by
  unfold composite_object at h
  split at h
  next => exact Except.noConfusion h
  next =>
    split at h
    next n hf => exact Except.noConfusion h
    next hf =>
      injection h with h
      exact ⟨h.symm, hf⟩

/-- Helper: a nonempty participant list on which the collision check reports
the name `m` fails to compose with the duplicate-field error naming `m`. -/
theorem composite_object_eq_error_of_findCollision
    (ps : List (Participant Ctx Args Val Err)) (m : String)
    (hne : ps.isEmpty = false) (hm : findCollision ps = some m) :
    composite_object ps = .error (.duplicateField m) := by
  unfold composite_object
  rw [hne, hm]
  rfl

/-- C9: for every input GraphQL type value, `type_to_owned` returns a type
that is structurally equal to its input: the same variant, the same name
strings, the same optional list sizes, and recursively equal inner types. -/
theorem type_to_owned_structEq (ty : GqlType) :
    GqlType.structEq (type_to_owned ty) ty = true := by
  induction ty with
  | Named name => simp [type_to_owned, GqlType.structEq, Cow.str]
  | NonNullNamed name => simp [type_to_owned, GqlType.structEq, Cow.str]
  | List inner size ih => simp [type_to_owned, GqlType.structEq, ih]
  | NonNullList inner size ih => simp [type_to_owned, GqlType.structEq, ih]

/-- C10: `type_to_owned` terminates on every input: its recursion descends
strictly into the inner type of `List` and `NonNullList` (the `depth` measure
decreases), so any fuel budget of at least `depth ty` suffices for the
fuel-capped recursion to complete and agree with `type_to_owned`. -/
theorem type_to_owned_total (ty : GqlType) (fuel : Nat)
    (h : GqlType.depth ty ≤ fuel) :
    type_to_owned_fuel fuel ty = some (type_to_owned ty) := by
  induction ty generalizing fuel with
  | Named name =>
      cases fuel with
      | zero => exact absurd h (by simp [GqlType.depth])
      | succ k => simp [type_to_owned_fuel, type_to_owned]
  | NonNullNamed name =>
      cases fuel with
      | zero => exact absurd h (by simp [GqlType.depth])
      | succ k => simp [type_to_owned_fuel, type_to_owned]
  | List inner size ih =>
      cases fuel with
      | zero => exact absurd h (by simp [GqlType.depth])
      | succ k =>
          have hk : GqlType.depth inner ≤ k := by
            simpa [GqlType.depth, Nat.succ_le_succ_iff] using h
          simp [type_to_owned_fuel, type_to_owned, ih k hk]
  | NonNullList inner size ih =>
      cases fuel with
      | zero => exact absurd h (by simp [GqlType.depth])
      | succ k =>
          have hk : GqlType.depth inner ≤ k := by
            simpa [GqlType.depth, Nat.succ_le_succ_iff] using h
          simp [type_to_owned_fuel, type_to_owned, ih k hk]

/-- Witness for C10: at a concretely nested type of depth 3, fuel 3 suffices
and the fuel-capped recursion returns exactly `type_to_owned` of it. -/
theorem type_to_owned_total_witness :
    type_to_owned_fuel 3
        (GqlType.NonNullList (GqlType.List (GqlType.Named (Cow.borrowed nmX)) (some 2)) none) =
      some (type_to_owned
        (GqlType.NonNullList (GqlType.List (GqlType.Named (Cow.borrowed nmX)) (some 2)) none)) :=
  type_to_owned_total
    (GqlType.NonNullList (GqlType.List (GqlType.Named (Cow.borrowed nmX)) (some 2)) none)
    3 (by simp [GqlType.depth])

/-- C1: for every non-empty list of participants whose `fields()` lists are
pairwise disjoint, composition succeeds and the generated composite's field
set equals the flattened concatenation of each participant's `fields()` list,
in participant order, with each participant's fields kept in declared order. -/
theorem composite_object_disjoint_ok
    (ps : List (Participant Ctx Args Val Err)) (hne : ps ≠ [])
    (hdisj : ps.Pairwise (fun p q => ∀ n, n ∈ p.fields → n ∉ q.fields)) :
    composite_object ps = .ok ⟨ps⟩ ∧
      (Composite.mk ps).fields = (ps.map (fun p => p.fields)).flatten :=
  ⟨composite_object_ok ps hne hdisj, rfl⟩

/-- Witness for C1: two concrete disjoint participants compose successfully
and the composite's field list is the concatenation of their field lists. -/
theorem composite_object_disjoint_ok_witness :
    composite_object [pA, pB] = .ok ⟨[pA, pB]⟩ ∧
      (Composite.mk [pA, pB]).fields = [fldA1, fldA2, fldB1] := by
  have h := composite_object_disjoint_ok [pA, pB] (by simp) (by decide)
  exact ⟨h.1, h.2.trans rfl⟩

/-- C2: whenever some field name appears in more than one participant's
`fields()` list, composition fails with a build-time error naming at least
one genuinely colliding field name. -/
theorem composite_object_collision_fails
    (ps u v w : List (Participant Ctx Args Val Err))
    (p q : Participant Ctx Args Val Err) (n : String)
    (hps : ps = u ++ p :: v ++ q :: w) (h1 : n ∈ p.fields) (h2 : n ∈ q.fields) :
    ∃ m, composite_object ps = .error (.duplicateField m) ∧
      ∃ a b, List.Sublist [a, b] ps ∧ m ∈ a.fields ∧ m ∈ b.fields := by
  subst hps
  have hsome := findCollision_isSome_of_collision u v w p q n h1 h2
  obtain ⟨m, hm⟩ := Option.isSome_iff_exists.mp hsome
  obtain ⟨a, b, hsub, ha, hb⟩ := findCollision_some_sound _ m hm
  refine ⟨m, ?_, a, b, hsub, ha, hb⟩
  exact composite_object_eq_error_of_findCollision _ m (by simp) hm

/-- Witness for C2: two concrete participants sharing the field name `a2`
fail to compose, with the error naming a colliding field. -/
theorem composite_object_collision_fails_witness :
    ∃ m, composite_object [pA, pC] = .error (.duplicateField m) ∧
      ∃ a b, List.Sublist [a, b] [pA, pC] ∧ m ∈ a.fields ∧ m ∈ b.fields :=
  composite_object_collision_fails [pA, pC] [] [] [] pA pC fldA2 rfl
    (by simp [pA]) (by simp [pC])

/-- C3: for a field declared by a participant of a successfully composed
composite (hence, the collision check having passed, by exactly that one
participant), resolving it on the composite returns exactly the value or
error that the participant's own resolution (on a fresh default instance)
returns for the same arguments and context. -/
theorem composite_resolve_delegates
    (nf : String → Err) (ps : List (Participant Ctx Args Val Err))
    (c : Composite Ctx Args Val Err) (p : Participant Ctx Args Val Err)
    (f : String) (args : Args) (ctx : Ctx)
    (hok : composite_object ps = .ok c) (hp : p ∈ ps) (hf : f ∈ p.fields) :
    c.resolve nf f args ctx = p.resolve f args ctx := by
  obtain ⟨hc, hnc⟩ := composite_object_ok_inv ps c hok
  subst hc
  have hfind := find?_eq_of_no_collision ps p f hnc hp hf
  simp [Composite.resolve, hfind]

/-- Witness for C3: on the composite of `pA` and `pB`, resolving `b1` with
arguments 5 and context 3 returns exactly `pB`'s result, the value 7. -/
theorem composite_resolve_delegates_witness :
    (Composite.mk [pA, pB]).resolve idNF fldB1 5 3 = Except.ok 7 :=
  (composite_resolve_delegates idNF [pA, pB] (Composite.mk [pA, pB]) pB fldB1 5 3 rfl
      (by simp) (by simp [pB])).trans rfl

/-- C4: resolving a field name that no participant declares returns the
defensive "field not found" error result (the total dispatch function never
panics). -/
theorem composite_resolve_field_not_found
    (nf : String → Err) (c : Composite Ctx Args Val Err)
    (f : String) (args : Args) (ctx : Ctx)
    (h : ∀ p ∈ c.participants, f ∉ p.fields) :
    c.resolve nf f args ctx = .error (nf f) := by
  have hfind : c.participants.find? (fun p => decide (f ∈ p.fields)) = none := by
    rw [List.find?_eq_none]
    intro p hp
    simpa using h p hp
  simp [Composite.resolve, hfind]

/-- Witness for C4: resolving the undeclared field `zz` on the composite of
`pA` and `pB` returns the field-not-found error for `zz`. -/
theorem composite_resolve_field_not_found_witness :
    (Composite.mk [pA, pB]).resolve idNF fldZZ 5 3 = Except.error (idNF fldZZ) :=
  composite_resolve_field_not_found idNF (Composite.mk [pA, pB]) fldZZ 5 3 (by decide)

/-- C5: every resolution call on a composite either is the defensive
field-not-found error or hands the very same context value, unchanged, to
the participant that declares the field, returning that participant's result
verbatim; and composition without a context specifier is composition at the
empty/unit context type. -/
theorem composite_resolve_ctx_passthrough :
    (∀ {Ctx Args Val Err : Type} (nf : String → Err) (c : Composite Ctx Args Val Err)
        (f : String) (args : Args) (ctx : Ctx),
      c.resolve nf f args ctx = Except.error (nf f) ∨
        ∃ p, p ∈ c.participants ∧ f ∈ p.fields ∧
          c.resolve nf f args ctx = p.resolve f args ctx) ∧
      ∀ {Args Val Err : Type} (ps : List (Participant Unit Args Val Err)),
        composite_object_default_context ps = composite_object ps := by
  constructor
  · intro Ctx Args Val Err nf c f args ctx
    cases hfind : c.participants.find? (fun p => decide (f ∈ p.fields)) with
    | none =>
        left
        simp [Composite.resolve, hfind]
    | some p =>
        right
        refine ⟨p, List.mem_of_find?_eq_some hfind, ?_, by simp [Composite.resolve, hfind]⟩
        have hpred := List.find?_some hfind
        simpa using hpred
  · intro Args Val Err ps
    rfl

/-- C6: a generated composite itself satisfies the Capability Contract (it is
stateless and exposes a `fields()` list equal to its field set), and using it
as a participant of a disjoint higher-level composition succeeds with the
higher-level composite's field set including all of the inner composite's
fields. -/
theorem composite_is_composable
    (nf : String → Err) (c : Composite Ctx Args Val Err)
    (qs : List (Participant Ctx Args Val Err))
    (hmem : c.toParticipant nf ∈ qs)
    (hdisj : qs.Pairwise (fun p q => ∀ n, n ∈ p.fields → n ∉ q.fields)) :
    (c.toParticipant nf).fields = c.fields ∧
      composite_object qs = .ok ⟨qs⟩ ∧
      ∀ f ∈ c.fields, f ∈ (Composite.mk qs).fields := by
  refine ⟨rfl, composite_object_ok qs (by rintro rfl; cases hmem) hdisj, ?_⟩
  intro f hf
  unfold Composite.fields
  rw [List.mem_flatten]
  exact ⟨(c.toParticipant nf).fields, List.mem_map_of_mem _ hmem, hf⟩

/-- Witness for C6: the concrete composite `cA` (of participant `pA`) used as
a participant next to `pB` composes successfully, and `cA`'s field `a1` is in
the higher-level composite's field set. -/
theorem composite_is_composable_witness :
    composite_object [cA.toParticipant idNF, pB] =
        .ok ⟨[cA.toParticipant idNF, pB]⟩ ∧
      fldA1 ∈ (Composite.mk [cA.toParticipant idNF, pB]).fields :=
  ⟨(composite_is_composable idNF cA [cA.toParticipant idNF, pB]
      (by simp) (by decide)).2.1,
    (composite_is_composable idNF cA [cA.toParticipant idNF, pB]
      (by simp) (by decide)).2.2 fldA1 (by decide)⟩

/-- C7: composition of an empty participant list is rejected at build time as
a malformed declaration, and every successfully generated composite has a
non-empty participant list. -/
theorem composite_object_rejects_empty :
    (∀ (Ctx Args Val Err : Type),
        composite_object ([] : List (Participant Ctx Args Val Err)) =
          .error .emptyParticipants) ∧
      ∀ {Ctx Args Val Err : Type} (ps : List (Participant Ctx Args Val Err))
        (c : Composite Ctx Args Val Err),
        composite_object ps = .ok c → ps ≠ [] := by
  constructor
  · intro Ctx Args Val Err
    rfl
  · intro Ctx Args Val Err ps c h hps
    subst hps
    exact Except.noConfusion h

/-- Witness for C7: the successful concrete composition of `[pA]` indeed has
a non-empty participant list. -/
theorem composite_object_rejects_empty_witness :
    ([pA] : List (Participant Nat Nat Nat String)) ≠ [] :=
  composite_object_rejects_empty.2 [pA] (Composite.mk [pA]) rfl

/-- C8: the `fields()` function of the Capability Contract is static and
side-effect free: a call takes no instance of the type, leaves any caller
state unchanged, and any two calls return the same ordered list of
field-name strings. -/
theorem fields_static_deterministic :
    ∀ {Ctx Args Val Err : Type} {σ τ : Type}
      (p : Participant Ctx Args Val Err) (s : σ) (t : τ),
      (fieldsCall p s).1 = (fieldsCall p t).1 ∧
        (fieldsCall p s).2 = s ∧ (fieldsCall p t).2 = t := by
  intro Ctx Args Val Err σ τ p s t
  exact ⟨rfl, rfl, rfl⟩
